import Mathlib

/-!
Shallow embedding of the conversation-store core of the companion client:
the turn data model, the zustand stores (`useAppStore` in `lib/state.ts`,
`useLogStore` in `lib/logStore.ts`), the message pacing algorithm
(`splitMessage` in `StreamingConsole.tsx`), the rapport analysis
(`analyzeRapport` in the live-api hook) and the streaming session close
handler.  Stateful TypeScript store actions become explicit state-passing
functions on an `AppState` record; `new Date()` becomes an explicit `now`
parameter; the awaited remote call of `analyzeRapport` becomes a
`RapportReply` parameter describing the outcome of the await and parse.
-/

/-- `role: 'user' | 'agent' | 'system'` of `ConversationTurn` (logStore.ts). -/
inductive Role where
  | user
  | agent
  | system
deriving DecidableEq, Repr

/-- `ConversationTurn` (logStore.ts).  `timestamp: Date` is modelled as a
natural number of milliseconds; `reaction?: string` as `Option String`. -/
structure ConversationTurn where
  timestamp : Nat
  role : Role
  text : String
  isFinal : Bool
  reaction : Option String
deriving DecidableEq, Repr

/-- The per-persona state of `Persona` (lib/state.ts) that the store actions
under verification read or write: `id`, `chatHistory`, `rapport` and
`unreadCount?: number`.  The remaining fields (name, avatar, backstory,
traits, journalData, relationshipToUser, sharedMemory, voice) are never
touched by the modelled operations. -/
structure Persona where
  id : String
  chatHistory : List ConversationTurn
  rapport : ℚ
  unreadCount : Option Nat
deriving DecidableEq, Repr

/-- The combined store state: `personas` and `activePersonaId` from
`useAppStore` (lib/state.ts) and the transient `turns` view from
`useLogStore` (logStore.ts). -/
structure AppState where
  personas : List Persona
  activePersonaId : Option String
  turns : List ConversationTurn
deriving DecidableEq, Repr

/-- JavaScript truthiness of a `string | null | undefined` value:
`null`/`undefined` and the empty string are falsy. -/
def jsTruthyStr : Option String → Bool
  | none => false
  | some s => !s.isEmpty

/-- `getPersonaById` (lib/state.ts): `personas.find(p => p.id === id)`. -/
def getPersonaById (s : AppState) (id : String) : Option Persona :=
  s.personas.find? (fun p => p.id == id)

/-- `updatePersonaChatHistory` (lib/state.ts): replace the chat history of
every persona whose id matches. -/
def updatePersonaChatHistory (s : AppState) (personaId : String)
    (chatHistory : List ConversationTurn) : AppState :=
  { s with personas := s.personas.map (fun p =>
      if p.id == personaId then { p with chatHistory := chatHistory } else p) }

/-- `incrementPersonaUnreadCount` (lib/state.ts):
`unreadCount: (p.unreadCount || 0) + 1` — both `undefined` and `0` are falsy,
so both read as `0`. -/
def incrementPersonaUnreadCount (s : AppState) (personaId : String) : AppState :=
  { s with personas := s.personas.map (fun p =>
      if p.id == personaId then
        { p with unreadCount := some (p.unreadCount.getD 0 + 1) } else p) }

/-- `clearPersonaUnreadCount` (lib/state.ts): `unreadCount: 0`. -/
def clearPersonaUnreadCount (s : AppState) (personaId : String) : AppState :=
  { s with personas := s.personas.map (fun p =>
      if p.id == personaId then { p with unreadCount := some 0 } else p) }

/-- `selectPersona` (lib/state.ts): `if (id)` (truthy check) clear the unread
count of the selected persona and load its history into the log-store view,
then set `activePersonaId` unconditionally. -/
def selectPersona (s : AppState) (id : Option String) : AppState :=
  let s' :=
    if jsTruthyStr id then
      match id with
      | some i =>
        let s1 := clearPersonaUnreadCount s i
        let nextPersona := s1.personas.find? (fun p => p.id == i)
        { s1 with turns := (nextPersona.map Persona.chatHistory).getD [] }
      | none => s
    else s
  { s' with activePersonaId := id }

/-- The fields of `updatePersona`'s `updates` argument that the verified
callers pass (`analyzeRapport` passes only `rapport`). -/
structure PersonaUpdates where
  rapport : Option ℚ := none
deriving DecidableEq, Repr

/-- `updatePersona` (lib/state.ts): merge `updates` into every persona whose
id matches. -/
def updatePersona (s : AppState) (id : String) (updates : PersonaUpdates) : AppState :=
  { s with personas := s.personas.map (fun p =>
      if p.id == id then { p with rapport := updates.rapport.getD p.rapport } else p) }

/-- `Partial<ConversationTurn>`: each field optionally present. -/
structure TurnUpdates where
  timestamp : Option Nat := none
  role : Option Role := none
  text : Option String := none
  isFinal : Option Bool := none
  reaction : Option String := none
deriving DecidableEq, Repr

/-- The spread `{...turn, ...updates}`: fields present in `updates` win. -/
def applyTurnUpdates (t : ConversationTurn) (u : TurnUpdates) : ConversationTurn :=
  { timestamp := u.timestamp.getD t.timestamp
    role := u.role.getD t.role
    text := u.text.getD t.text
    isFinal := u.isFinal.getD t.isFinal
    reaction := u.reaction.or t.reaction }

/-- `updateTurnInHistory` (lib/state.ts).  For the matching persona, if the
index is in range: `newReaction = (updates.reaction && currentReaction ===
updates.reaction) ? undefined : updates.reaction`, then
`{...turn, ...updates, reaction: newReaction}`.  Out-of-range index leaves the
persona unchanged. -/
def updateTurnInHistory (s : AppState) (personaId : String) (turnIndex : Nat)
    (updates : TurnUpdates) : AppState :=
  { s with personas := s.personas.map (fun p =>
      if p.id == personaId then
        match p.chatHistory.get? turnIndex with
        | some old =>
          let currentReaction := old.reaction
          let newReaction :=
            if jsTruthyStr updates.reaction && currentReaction == updates.reaction
            then none else updates.reaction
          let newTurn := { applyTurnUpdates old updates with reaction := newReaction }
          { p with chatHistory := p.chatHistory.set turnIndex newTurn }
        | none => p
      else p) }

/-- `appendTurn` (logStore.ts).  `now` models `new Date()` (used only when a
new turn is created); `isFinal` is the optional third argument
(`typeof isFinal === 'boolean' ? isFinal : last.isFinal` on extension,
`isFinal ?? false` on creation). -/
def appendTurn (s : AppState) (personaId : String) (role : Role)
    (textChunk : String) (isFinal : Option Bool) (now : Nat) : AppState :=
  match getPersonaById s personaId with
  | none => s
  | some persona =>
    let currentHistory := persona.chatHistory
    let newHistory :=
      match currentHistory.getLast? with
      | some last =>
        if last.role == role && !last.isFinal then
          currentHistory.dropLast ++
            [{ last with
                text := last.text ++ textChunk
                isFinal := isFinal.getD last.isFinal }]
        else
          currentHistory ++
            [{ timestamp := now, role := role, text := textChunk,
               isFinal := isFinal.getD false, reaction := none }]
      | none =>
        currentHistory ++
          [{ timestamp := now, role := role, text := textChunk,
             isFinal := isFinal.getD false, reaction := none }]
    let s1 := updatePersonaChatHistory s personaId newHistory
    if s.activePersonaId == some personaId then
      { s1 with turns := newHistory }
    else
      if role == Role.agent then incrementPersonaUnreadCount s1 personaId else s1

/-- `finalizeTurn` (logStore.ts).  `if (!activePersonaId) return state` is a
truthiness check, so an empty-string active id is also a no-op. -/
def finalizeTurn (s : AppState) : AppState :=
  if !jsTruthyStr s.activePersonaId then s
  else
    match s.activePersonaId with
    | none => s
    | some activePersonaId =>
      match getPersonaById s activePersonaId with
      | none => s
      | some persona =>
        match persona.chatHistory.getLast? with
        | none => s
        | some last =>
          if !last.isFinal then
            let newHistory := persona.chatHistory.dropLast ++ [{ last with isFinal := true }]
            let s1 := updatePersonaChatHistory s activePersonaId newHistory
            { s1 with turns := newHistory }
          else s

/-- `updateTurn` (logStore.ts): guard on a truthy `activePersonaId`, delegate
to `updateTurnInHistory`, then re-sync the log-store view from the updated
persona. -/
def updateTurn (s : AppState) (turnIndex : Nat) (updates : TurnUpdates) : AppState :=
  if !jsTruthyStr s.activePersonaId then s
  else
    match s.activePersonaId with
    | none => s
    | some activePersonaId =>
      let s1 := updateTurnInHistory s activePersonaId turnIndex updates
      match getPersonaById s1 activePersonaId with
      | some updatedPersona => { s1 with turns := updatedPersona.chatHistory }
      | none => s1

/-- Outcome of the awaited remote call and JSON parse inside `analyzeRapport`
(the live-api hook).  `failure` covers a thrown remote call and reply text
that fails `JSON.parse`; `parsed u` covers a successful parse whose
`updatedRapport` field is a number (`some q`) or absent / not a number
(`none`).  JSON numbers are modelled as rationals. -/
inductive RapportReply where
  | failure
  | parsed (updatedRapport : Option ℚ)
deriving DecidableEq, Repr

/-- `analyzeRapport` (live-api hook).  Skips when the persona is unknown or
the exchange is empty; on a parsed numeric `updatedRapport` writes
`Math.max(0, Math.min(1000, v))` through `updatePersona`; otherwise the
caught exception (or failed `typeof` check) leaves the state unchanged. -/
def analyzeRapport (s : AppState) (personaId : String)
    (exchange : List ConversationTurn) (reply : RapportReply) : AppState :=
  match getPersonaById s personaId with
  | none => s
  | some _ =>
    if exchange.isEmpty then s
    else
      match reply with
      | .failure => s
      | .parsed none => s
      | .parsed (some v) =>
        let newRapport := max 0 (min 1000 v)
        updatePersona s personaId { rapport := some newRapport }

/-- State visible to the live-session hook: the shared app/log stores plus the
hook's own `connected` flag and `activeCallPersonaId` ref.
`journalDispatches` records each fire-and-forget `updatePersonaJournal`
dispatch (persona id and the turns handed to it). -/
structure SessionState where
  app : AppState
  connected : Bool
  activeCallPersonaId : Option String
  journalDispatches : List (String × List ConversationTurn)
deriving DecidableEq, Repr

/-- `disconnect` (live-api hook): set `connected` to false; if
`activeCallPersonaId` is truthy and the log-store turns are non-empty,
dispatch the journal update and clear the transient turns; finally null the
ref.  (`client.disconnect()` is external and has no modelled state.) -/
def disconnect (s : SessionState) : SessionState :=
  let s1 := { s with connected := false }
  let s2 :=
    if jsTruthyStr s1.activeCallPersonaId then
      match s1.activeCallPersonaId with
      | some personaId =>
        let currentTurns := s1.app.turns
        if currentTurns.isEmpty then s1
        else
          { s1 with
              journalDispatches := s1.journalDispatches ++ [(personaId, currentTurns)]
              app := { s1.app with turns := [] } }
      | none => s1
    else s1
  { s2 with activeCallPersonaId := none }

/-- The `onClose` handler of the live-api hook:
`if (connected) { disconnect(); } setConnected(false);`. -/
def onClose (s : SessionState) : SessionState :=
  let s' := if s.connected then disconnect s else s
  { s' with connected := false }

/-- ASCII whitespace recognised by `String.prototype.trim`. -/
def isJsWhitespace (c : Char) : Bool :=
  c == ' ' || c == '\t' || c == '\n' || c == '\r' || c == '\x0b' || c == '\x0c'

/-- `String.prototype.trim`: strip leading and trailing whitespace.  JS
strings are modelled as `List Char`. -/
def jsTrim (s : List Char) : List Char :=
  ((s.dropWhile isJsWhitespace).reverse.dropWhile isJsWhitespace).reverse

/-- `s.lastIndexOf(search, fromIndex)`: the largest index `≤ fromIndex` at
which an occurrence of `search` starts, or `-1`. -/
def jsLastIndexOf (s search : List Char) (fromIndex : Nat) : Int :=
  match ((List.range (min fromIndex s.length + 1)).filter
      (fun i => search.isPrefixOf (s.drop i))).getLast? with
  | some i => (i : Int)
  | none => -1

/-- `s.indexOf(search, fromIndex)`: the smallest index `≥ fromIndex` at which
an occurrence of `search` starts, or `-1`. -/
def jsIndexOf (s search : List Char) (fromIndex : Nat) : Int :=
  match ((List.range (s.length + 1)).filter
      (fun i => decide (fromIndex ≤ i) && search.isPrefixOf (s.drop i))).head? with
  | some i => (i : Int)
  | none => -1

/-- `MIN_CHUNK` of `splitMessage` (StreamingConsole.tsx). -/
def MIN_CHUNK : Nat := 20
/-- `MAX_CHUNK` of `splitMessage` (StreamingConsole.tsx). -/
def MAX_CHUNK : Nat := 140
/-- `IDEAL_CHUNK` of `splitMessage` (StreamingConsole.tsx). -/
def IDEAL_CHUNK : Nat := 80

/-- `sentenceEndChars` of `splitMessage`: `['.', '!', '?', '…', '—', '...']`
(the last entry is a three-character search string). -/
def sentenceEndChars : List (List Char) :=
  [['.'], ['!'], ['?'], ['…'], ['—'], ['.', '.', '.']]

theorem jsTrim_length_le (s : List Char) : (jsTrim s).length ≤ s.length := by
  unfold jsTrim
  calc ((s.dropWhile isJsWhitespace).reverse.dropWhile isJsWhitespace).reverse.length
      = ((s.dropWhile isJsWhitespace).reverse.dropWhile isJsWhitespace).length := by
        rw [List.length_reverse]
    _ ≤ (s.dropWhile isJsWhitespace).reverse.length :=
        (List.dropWhile_sublist _).length_le
    _ = (s.dropWhile isJsWhitespace).length := by rw [List.length_reverse]
    _ ≤ s.length := (List.dropWhile_sublist _).length_le

theorem jsIndexOf_le_of_ne (s search : List Char) (fromIndex : Nat)
    (h : jsIndexOf s search fromIndex ≠ -1) :
    (fromIndex : Int) ≤ jsIndexOf s search fromIndex := by
  unfold jsIndexOf at h ⊢
  cases hh : ((List.range (s.length + 1)).filter
      (fun i => decide (fromIndex ≤ i) && search.isPrefixOf (s.drop i))).head? with
  | none => rw [hh] at h; simp at h
  | some i =>
    show (fromIndex : Int) ≤ (i : Int)
    obtain ⟨ys, hys⟩ := List.head?_eq_some_iff.mp hh
    have hmem : i ∈ (List.range (s.length + 1)).filter
        (fun i => decide (fromIndex ≤ i) && search.isPrefixOf (s.drop i)) := by
      rw [hys]; exact List.mem_cons_self _ _
    have hp := List.of_mem_filter hmem
    simp only [Bool.and_eq_true, decide_eq_true_eq] at hp
    exact_mod_cast hp.1

/-- `Math.min(remainingText.length, MAX_CHUNK)` — the slice window. -/
def slicePointOf (remainingText : List Char) : Nat :=
  min remainingText.length MAX_CHUNK

/-- The `splitAt` computed by the sentence-end-punctuation scan of
`splitMessage`: fold over `sentenceEndChars`, keeping the largest
`lastIndexOf` position strictly past `MIN_CHUNK`, starting from `-1`. -/
def sentenceSplitAt (remainingText : List Char) : Int :=
  sentenceEndChars.foldl (fun acc ch =>
      let pos := jsLastIndexOf remainingText ch (slicePointOf remainingText)
      if pos > (MIN_CHUNK : Int) then max acc pos else acc) (-1)

/-- The comma position probed by `splitMessage`'s second branch. -/
def commaPos (remainingText : List Char) : Int :=
  jsLastIndexOf remainingText [','] (slicePointOf remainingText)

/-- The last-space-before-ideal position probed by the third branch. -/
def spacePos (remainingText : List Char) : Int :=
  jsLastIndexOf remainingText [' '] IDEAL_CHUNK

/-- The first-space-at-or-after-ideal position probed by the fourth branch. -/
def nextSpacePos (remainingText : List Char) : Int :=
  jsIndexOf remainingText [' '] IDEAL_CHUNK

/-- One push of the loop: `bubbles.push(chunk.trim())` with
`chunk = remainingText.substring(0, k)`. -/
def chunkAt (remainingText : List Char) (k : Nat) : List Char :=
  jsTrim (remainingText.take k)

/-- The update `remainingText = remainingText.substring(k).trim()`. -/
def restAt (remainingText : List Char) (k : Nat) : List Char :=
  jsTrim (remainingText.drop k)

theorem restAt_length_lt (remainingText : List Char) (k : Nat)
    (hk : 1 ≤ k) (hr : 0 < remainingText.length) :
    (restAt remainingText k).length < remainingText.length := by
  have h1 := jsTrim_length_le (remainingText.drop k)
  rw [List.length_drop] at h1
  unfold restAt
  omega

/-- The `while` loop of `splitMessage` (StreamingConsole.tsx), acting on the
remaining text and returning the bubbles it pushes.  Each branch mirrors the
source: sentence-end punctuation within the slice window, then comma, then
the last space before the ideal length, then the first space at or after it,
else emit the remainder whole. -/
def splitLoop (remainingText : List Char) : List (List Char) :=
  if _h0 : remainingText.length = 0 then []
  else if _h1 : remainingText.length < MAX_CHUNK then [remainingText]
  else
    if _hs : sentenceSplitAt remainingText ≠ -1 then
      chunkAt remainingText ((sentenceSplitAt remainingText).toNat + 1) ::
        splitLoop (restAt remainingText ((sentenceSplitAt remainingText).toNat + 1))
    else
      if _hc : commaPos remainingText > (MIN_CHUNK : Int) then
        chunkAt remainingText ((commaPos remainingText).toNat + 1) ::
          splitLoop (restAt remainingText ((commaPos remainingText).toNat + 1))
      else
        if _hsp : spacePos remainingText > (MIN_CHUNK : Int) then
          chunkAt remainingText (spacePos remainingText).toNat ::
            splitLoop (restAt remainingText (spacePos remainingText).toNat)
        else
          if _hn : nextSpacePos remainingText ≠ -1 then
            chunkAt remainingText (nextSpacePos remainingText).toNat ::
              splitLoop (restAt remainingText (nextSpacePos remainingText).toNat)
          else
            [remainingText]
termination_by remainingText.length
decreasing_by
  · exact restAt_length_lt _ _ (by omega) (by omega)
  · exact restAt_length_lt _ _ (by omega) (by omega)
  · refine restAt_length_lt _ _ ?_ (by omega)
    have h3 : (MIN_CHUNK : Int) = 20 := rfl
    omega
  · refine restAt_length_lt _ _ ?_ (by omega)
    have h2 := jsIndexOf_le_of_ne remainingText [' '] IDEAL_CHUNK _hn
    have h3 : (IDEAL_CHUNK : Int) = 80 := rfl
    unfold nextSpacePos
    omega

/-- `splitMessage` (StreamingConsole.tsx): strings under `MAX_CHUNK`
characters are returned whole (no trim); longer strings are trimmed, split by
`splitLoop`, and empty bubbles are filtered out. -/
def splitMessage (text : List Char) : List (List Char) :=
  if text.length < MAX_CHUNK then [text]
  else (splitLoop (jsTrim text)).filter (fun b => decide (0 < b.length))

/-- An operation of the turn append/finalize engine, for reachability
statements over `appendTurn`/`finalizeTurn` sequences. -/
inductive LogOp where
  | append (personaId : String) (role : Role) (textChunk : String)
      (isFinal : Option Bool) (now : Nat)
  | finalize
deriving DecidableEq, Repr

/-- Apply one engine operation. -/
def applyOp (s : AppState) : LogOp → AppState
  | .append personaId role textChunk isFinal now =>
      appendTurn s personaId role textChunk isFinal now
  | .finalize => finalizeTurn s

/-- Apply a sequence of engine operations in order. -/
def applyOps (s : AppState) (ops : List LogOp) : AppState :=
  ops.foldl applyOp s

/-- The spec's history invariant: every turn preceding the trailing turn is
final (equivalently, at most the trailing turn is non-final). -/
def histInv (h : List ConversationTurn) : Bool :=
  h.dropLast.all (·.isFinal)

/-- The history invariant over every persona of a state. -/
def stateInv (s : AppState) : Bool :=
  s.personas.all (fun p => histInv p.chatHistory)

/-- An append is boundary-safe in state `s` when it cannot start a new turn
on top of a non-final trailing turn: the target persona is unknown, its
history is empty, its trailing turn is final, or the appended role equals the
trailing turn's role (extension).  `finalize` is always safe. -/
def opSafe (s : AppState) : LogOp → Bool
  | .append personaId role _ _ _ =>
      match getPersonaById s personaId with
      | none => true
      | some persona =>
        match persona.chatHistory.getLast? with
        | none => true
        | some last => last.isFinal || last.role == role
  | .finalize => true

/-- Every operation of the sequence is boundary-safe in the state it runs
in. -/
def opsSafe (s : AppState) : List LogOp → Bool
  | [] => true
  | op :: rest => opSafe s op && opsSafe (applyOp s op) rest

/-- One call of a same-role `appendTurn` streaming sequence: the text chunk,
the optional `isFinal` argument and the creation time. -/
structure AppendCall where
  chunk : String
  isFinal : Option Bool
  now : Nat
deriving DecidableEq, Repr

/-- Run a sequence of `appendTurn` calls with a fixed persona and role. -/
def appendCalls (s : AppState) (personaId : String) (role : Role) :
    List AppendCall → AppState
  | [] => s
  | c :: rest =>
      appendCalls (appendTurn s personaId role c.chunk c.isFinal c.now)
        personaId role rest

theorem find?_map_of_id_eq (g : Persona → Persona)
    (hg : ∀ p, (g p).id = p.id) (l : List Persona) (pid : String) :
    (l.map g).find? (fun p => p.id == pid) =
      (l.find? (fun p => p.id == pid)).map g := by
  induction l with
  | nil => rfl
  | cons a t ih =>
    simp only [List.map_cons, List.find?_cons]
    rw [hg a]
    cases h : (a.id == pid) with
    | true => rfl
    | false => exact ih

theorem getPersonaById_updatePersonaChatHistory (s : AppState) (pid qid : String)
    (h : List ConversationTurn) :
    getPersonaById (updatePersonaChatHistory s pid h) qid =
      (getPersonaById s qid).map
        (fun p => if p.id == pid then { p with chatHistory := h } else p) := by
  unfold getPersonaById updatePersonaChatHistory
  refine find?_map_of_id_eq _ (fun p => ?_) _ _
  show (if (p.id == pid) = true then { p with chatHistory := h } else p).id = p.id
  split <;> rfl

theorem getPersonaById_updatePersonaChatHistory_self (s : AppState) (pid : String)
    (p : Persona) (hp : getPersonaById s pid = some p) (h : List ConversationTurn) :
    getPersonaById (updatePersonaChatHistory s pid h) pid =
      some { p with chatHistory := h } := by
  rw [getPersonaById_updatePersonaChatHistory, hp]
  have hp' : s.personas.find? (fun q => q.id == pid) = some p := hp
  have hid : (p.id == pid) = true := by
    have h2 := List.find?_some hp'
    exact h2
  simp only [Option.map_some']
  rw [if_pos hid]

theorem getPersonaById_incrementPersonaUnreadCount (s : AppState) (pid qid : String) :
    getPersonaById (incrementPersonaUnreadCount s pid) qid =
      (getPersonaById s qid).map
        (fun p => if p.id == pid then
          { p with unreadCount := some (p.unreadCount.getD 0 + 1) } else p) := by
  unfold getPersonaById incrementPersonaUnreadCount
  refine find?_map_of_id_eq _ (fun p => ?_) _ _
  show (if (p.id == pid) = true then
      { p with unreadCount := some (p.unreadCount.getD 0 + 1) } else p).id = p.id
  split <;> rfl

theorem getPersonaById_clearPersonaUnreadCount (s : AppState) (pid qid : String) :
    getPersonaById (clearPersonaUnreadCount s pid) qid =
      (getPersonaById s qid).map
        (fun p => if p.id == pid then { p with unreadCount := some 0 } else p) := by
  unfold getPersonaById clearPersonaUnreadCount
  refine find?_map_of_id_eq _ (fun p => ?_) _ _
  show (if (p.id == pid) = true then { p with unreadCount := some 0 } else p).id = p.id
  split <;> rfl

theorem getPersonaById_updatePersona (s : AppState) (pid qid : String)
    (u : PersonaUpdates) :
    getPersonaById (updatePersona s pid u) qid =
      (getPersonaById s qid).map
        (fun p => if p.id == pid then
          { p with rapport := u.rapport.getD p.rapport } else p) := by
  unfold getPersonaById updatePersona
  refine find?_map_of_id_eq _ (fun p => ?_) _ _
  show (if (p.id == pid) = true then
      { p with rapport := u.rapport.getD p.rapport } else p).id = p.id
  split <;> rfl

theorem getPersonaById_updateTurnInHistory (s : AppState) (pid qid : String)
    (i : Nat) (u : TurnUpdates) :
    getPersonaById (updateTurnInHistory s pid i u) qid =
      (getPersonaById s qid).map (fun p =>
        if p.id == pid then
          match p.chatHistory.get? i with
          | some old =>
            let newReaction : Option String :=
              if jsTruthyStr u.reaction && old.reaction == u.reaction
              then none else u.reaction
            let newTurn := { applyTurnUpdates old u with reaction := newReaction }
            { p with chatHistory := p.chatHistory.set i newTurn }
          | none => p
        else p) := by
  unfold getPersonaById updateTurnInHistory
  refine find?_map_of_id_eq _ (fun p => ?_) _ _
  show (if (p.id == pid) = true then _ else p).id = p.id
  split
  · cases p.chatHistory.get? i <;> rfl
  · rfl

theorem activePersonaId_updatePersonaChatHistory (s : AppState) (pid : String)
    (h : List ConversationTurn) :
    (updatePersonaChatHistory s pid h).activePersonaId = s.activePersonaId := rfl

theorem activePersonaId_incrementPersonaUnreadCount (s : AppState) (pid : String) :
    (incrementPersonaUnreadCount s pid).activePersonaId = s.activePersonaId := rfl

theorem id_beq_of_getPersonaById (s : AppState) (pid : String) (p : Persona)
    (hp : getPersonaById s pid = some p) : (p.id == pid) = true := by
  have hp' : s.personas.find? (fun q => q.id == pid) = some p := hp
  have h2 := List.find?_some hp'
  exact h2

theorem mem_of_getPersonaById (s : AppState) (pid : String) (p : Persona)
    (hp : getPersonaById s pid = some p) : p ∈ s.personas := by
  have hp' : s.personas.find? (fun q => q.id == pid) = some p := hp
  exact List.mem_of_find?_eq_some hp'

theorem getPersonaById_incrementPersonaUnreadCount_self (s : AppState) (pid : String)
    (p : Persona) (hp : getPersonaById s pid = some p) :
    getPersonaById (incrementPersonaUnreadCount s pid) pid =
      some { p with unreadCount := some (p.unreadCount.getD 0 + 1) } := by
  rw [getPersonaById_incrementPersonaUnreadCount, hp]
  simp only [Option.map_some']
  rw [if_pos (id_beq_of_getPersonaById s pid p hp)]

theorem getPersonaById_clearPersonaUnreadCount_self (s : AppState) (pid : String)
    (p : Persona) (hp : getPersonaById s pid = some p) :
    getPersonaById (clearPersonaUnreadCount s pid) pid =
      some { p with unreadCount := some 0 } := by
  rw [getPersonaById_clearPersonaUnreadCount, hp]
  simp only [Option.map_some']
  rw [if_pos (id_beq_of_getPersonaById s pid p hp)]

theorem getPersonaById_updatePersona_self (s : AppState) (pid : String)
    (p : Persona) (hp : getPersonaById s pid = some p) (u : PersonaUpdates) :
    getPersonaById (updatePersona s pid u) pid =
      some { p with rapport := u.rapport.getD p.rapport } := by
  rw [getPersonaById_updatePersona, hp]
  simp only [Option.map_some']
  rw [if_pos (id_beq_of_getPersonaById s pid p hp)]

/-- The `newHistory` computed by `appendTurn`, as a function of the current
history (verification-side characterization of the merge decision). -/
def appendedHistory (h : List ConversationTurn) (role : Role) (c : String)
    (f : Option Bool) (now : Nat) : List ConversationTurn :=
  match h.getLast? with
  | some last =>
    if last.role == role && !last.isFinal then
      h.dropLast ++
        [{ last with text := last.text ++ c, isFinal := f.getD last.isFinal }]
    else
      h ++ [{ timestamp := now, role := role, text := c,
              isFinal := f.getD false, reaction := none }]
  | none =>
    h ++ [{ timestamp := now, role := role, text := c,
            isFinal := f.getD false, reaction := none }]

theorem appendTurn_eq (s : AppState) (pid : String) (p : Persona) (role : Role)
    (c : String) (f : Option Bool) (now : Nat)
    (hp : getPersonaById s pid = some p) :
    appendTurn s pid role c f now =
      (let newHistory := appendedHistory p.chatHistory role c f now
       let s1 := updatePersonaChatHistory s pid newHistory
       if s.activePersonaId == some pid then { s1 with turns := newHistory }
       else if role == Role.agent then incrementPersonaUnreadCount s1 pid else s1) := by
  unfold appendTurn appendedHistory
  rw [hp]

theorem appendTurn_result (s : AppState) (pid : String) (p : Persona) (role : Role)
    (c : String) (f : Option Bool) (now : Nat)
    (hp : getPersonaById s pid = some p) :
    ∃ p', getPersonaById (appendTurn s pid role c f now) pid = some p' ∧
      p'.chatHistory = appendedHistory p.chatHistory role c f now := by
  rw [appendTurn_eq s pid p role c f now hp]
  have h1 := getPersonaById_updatePersonaChatHistory_self s pid p hp
    (appendedHistory p.chatHistory role c f now)
  by_cases ha : (s.activePersonaId == some pid) = true
  · simp only [ha, if_true]
    exact ⟨_, h1, rfl⟩
  · simp only [ha, if_false, Bool.false_eq_true]
    by_cases hr : (role == Role.agent) = true
    · simp only [hr, if_true]
      have h2 := getPersonaById_incrementPersonaUnreadCount_self
        (updatePersonaChatHistory s pid (appendedHistory p.chatHistory role c f now))
        pid _ h1
      exact ⟨_, h2, rfl⟩
    · simp only [hr, if_false, Bool.false_eq_true]
      exact ⟨_, h1, rfl⟩

theorem appendedHistory_extend (h : List ConversationTurn)
    (last : ConversationTurn) (role : Role) (c : String) (f : Option Bool)
    (now : Nat) (hr : last.role = role) (hf : last.isFinal = false) :
    appendedHistory (h ++ [last]) role c f now =
      h ++ [{ last with text := last.text ++ c, isFinal := f.getD last.isFinal }] := by
  unfold appendedHistory
  rw [List.getLast?_concat]
  simp [hr, hf]

theorem appendedHistory_create (h : List ConversationTurn) (role : Role)
    (c : String) (f : Option Bool) (now : Nat)
    (hb : h = [] ∨ ∃ last, h.getLast? = some last ∧
        (last.isFinal = true ∨ last.role ≠ role)) :
    appendedHistory h role c f now =
      h ++ [{ timestamp := now, role := role, text := c,
              isFinal := f.getD false, reaction := none }] := by
  unfold appendedHistory
  rcases hb with hb | ⟨last, hl, hlf⟩
  · subst hb
    rfl
  · rw [hl]
    rcases hlf with hlf | hlf
    · simp [hlf]
    · have : (last.role == role) = false := by
        simp only [beq_eq_false_iff_ne, ne_eq]
        exact hlf
      simp [this]

theorem appendCalls_extend (role : Role) (calls : List AppendCall) :
    ∀ (s : AppState) (pid : String) (p : Persona) (h : List ConversationTurn)
      (last : ConversationTurn),
      getPersonaById s pid = some p →
      p.chatHistory = h ++ [last] →
      last.role = role → last.isFinal = false →
      (∀ c ∈ calls.dropLast, c.isFinal = none ∨ c.isFinal = some false) →
      ∃ p', getPersonaById (appendCalls s pid role calls) pid = some p' ∧
        p'.chatHistory = h ++
          [{ last with
              text := calls.foldl (fun txt c => txt ++ c.chunk) last.text,
              isFinal := calls.foldl (fun cur c => c.isFinal.getD cur) last.isFinal }] := by
  induction calls with
  | nil =>
    intro s pid p h last hp hh hr hf _
    refine ⟨p, hp, ?_⟩
    simpa using hh
  | cons c rest ih =>
    intro s pid p h last hp hh hr hf hflags
    obtain ⟨p1, hp1, hh1⟩ := appendTurn_result s pid p role c.chunk c.isFinal c.now hp
    rw [hh, appendedHistory_extend h last role c.chunk c.isFinal c.now hr hf] at hh1
    cases rest with
    | nil =>
      exact ⟨p1, hp1, hh1⟩
    | cons c2 rest2 =>
      have hc : c.isFinal = none ∨ c.isFinal = some false := by
        apply hflags
        exact List.mem_cons_self _ _
      have hfin : c.isFinal.getD last.isFinal = false := by
        rcases hc with hc | hc <;> simp [hc, hf]
      have hflags2 : ∀ x ∈ (c2 :: rest2).dropLast,
          x.isFinal = none ∨ x.isFinal = some false := by
        intro x hx
        exact hflags x (List.mem_cons_of_mem _ hx)
      obtain ⟨p', hp', hh'⟩ := ih _ pid p1 h _ hp1 hh1 hr hfin hflags2
      exact ⟨p', hp', hh'⟩

/-- A persona fixture with the given id and history. -/
def mkPersona (i : String) (h : List ConversationTurn) : Persona :=
  { id := i, chatHistory := h, rapport := 500, unreadCount := none }

/-- A two-persona fixture state with `p1` active and an empty view. -/
def demoState : AppState :=
  { personas := [mkPersona "p1" [], mkPersona "p2" []],
    activePersonaId := some "p1", turns := [] }

/-- C8: a close event that fires while the session is not connected (already
idle) never triggers the journal-update dispatch or the transient-history
clear; in fact the entire session state is unchanged. -/
theorem C8_onClose_already_idle (s : SessionState) (h : s.connected = false) :
    onClose s = s := by
  cases s with
  | mk app connected acpi jd =>
    simp only at h
    subst h
    rfl

/-- An idle session fixture for the C8 witness. -/
def idleSession : SessionState :=
  { app := demoState, connected := false, activeCallPersonaId := some "p1",
    journalDispatches := [] }

/-- Witness for C8: at a concrete idle session, `onClose` changes nothing. -/
theorem C8_onClose_already_idle_witness :
    idleSession.connected = false ∧ onClose idleSession = idleSession :=
  ⟨rfl, C8_onClose_already_idle idleSession rfl⟩

/-- C7: the rapport analysis writes the parsed numeric `updatedRapport`
clamped into [0, 1000]; a thrown call, unparsable reply or non-numeric field
leaves the state unchanged; it is skipped when the persona is unknown or the
exchange is empty. -/
theorem C7_analyzeRapport_spec :
    (∀ (s : AppState) (pid : String) (p : Persona)
        (exchange : List ConversationTurn) (v : ℚ),
      getPersonaById s pid = some p → exchange ≠ [] →
      (getPersonaById (analyzeRapport s pid exchange (.parsed (some v))) pid).map
          Persona.rapport = some (max 0 (min 1000 v)))
    ∧ (∀ (s : AppState) (pid : String) (exchange : List ConversationTurn),
        analyzeRapport s pid exchange .failure = s)
    ∧ (∀ (s : AppState) (pid : String) (exchange : List ConversationTurn),
        analyzeRapport s pid exchange (.parsed none) = s)
    ∧ (∀ (s : AppState) (pid : String) (exchange : List ConversationTurn)
          (r : RapportReply),
        getPersonaById s pid = none → analyzeRapport s pid exchange r = s)
    ∧ (∀ (s : AppState) (pid : String) (r : RapportReply),
        analyzeRapport s pid [] r = s) := by
  refine ⟨?_, ?_, ?_, ?_, ?_⟩
  · intro s pid p exchange v hp hx
    unfold analyzeRapport
    rw [hp]
    have hxe : exchange.isEmpty = false := by
      cases exchange
      · exact absurd rfl hx
      · rfl
    rw [hxe]
    simp only [Bool.false_eq_true, if_false]
    rw [getPersonaById_updatePersona_self s pid p hp]
    rfl
  · intro s pid exchange
    unfold analyzeRapport
    split
    · rfl
    · split <;> rfl
  · intro s pid exchange
    unfold analyzeRapport
    split
    · rfl
    · split <;> rfl
  · intro s pid exchange r hp
    unfold analyzeRapport
    rw [hp]
  · intro s pid r
    unfold analyzeRapport
    split
    · rfl
    · rfl

/-- A one-turn exchange fixture for the C7 witness. -/
def rapportTurn : ConversationTurn :=
  { timestamp := 0, role := .user, text := "hi", isFinal := true, reaction := none }

/-- Witness for C7: a reply of 1200 stores a rapport of exactly 1000. -/
theorem C7_analyzeRapport_spec_witness :
    (getPersonaById (analyzeRapport demoState "p1" [rapportTurn]
        (.parsed (some 1200))) "p1").map Persona.rapport = some 1000 := by
  have h := C7_analyzeRapport_spec.1 demoState "p1" (mkPersona "p1" []) [rapportTurn]
    1200 rfl (List.cons_ne_nil _ _)
  rw [h]
  norm_num

/-- Counterexample to C9: a turn created at time 10 and extended at time 99
keeps timestamp 10 — the extension time is not recorded, contradicting the
claim that the timestamp reflects the time of the last extension. -/
theorem C9_extension_timestamp_cex :
    (getPersonaById (appendTurn (appendTurn demoState "p1" .agent "a" (some false) 10)
        "p1" .agent "b" (some false) 99) "p1").map
      (fun p => p.chatHistory.map ConversationTurn.timestamp) = some [10]
    ∧ (10 : Nat) ≠ 99 := by
  constructor
  · decide
  · decide

/-- C9 amended: a turn's timestamp is the time of its creation only; an
`appendTurn` call that extends a non-final trailing turn leaves every
timestamp in the history unchanged. -/
theorem C9_extension_preserves_timestamp (s : AppState) (pid : String)
    (p : Persona) (h : List ConversationTurn) (last : ConversationTurn)
    (role : Role) (c : String) (f : Option Bool) (now : Nat)
    (hp : getPersonaById s pid = some p) (hh : p.chatHistory = h ++ [last])
    (hr : last.role = role) (hf : last.isFinal = false) :
    ∃ p', getPersonaById (appendTurn s pid role c f now) pid = some p' ∧
      p'.chatHistory.map ConversationTurn.timestamp =
        p.chatHistory.map ConversationTurn.timestamp := by
  obtain ⟨p', hp', hh'⟩ := appendTurn_result s pid p role c f now hp
  rw [hh, appendedHistory_extend h last role c f now hr hf] at hh'
  refine ⟨p', hp', ?_⟩
  rw [hh', hh]
  simp

/-- The persona state after the first append of the C9 witness. -/
def st9 : AppState := appendTurn demoState "p1" .agent "a" (some false) 10

/-- The turn created by the first append of the C9 witness. -/
def t9 : ConversationTurn :=
  { timestamp := 10, role := .agent, text := "a", isFinal := false, reaction := none }

/-- Witness for C9 amended: extending the concrete turn at time 99 leaves the
timestamp list unchanged. -/
theorem C9_extension_preserves_timestamp_witness :
    ∃ p', getPersonaById (appendTurn st9 "p1" .agent "b" (some false) 99) "p1" = some p' ∧
      p'.chatHistory.map ConversationTurn.timestamp =
        (mkPersona "p1" [t9]).chatHistory.map ConversationTurn.timestamp :=
  C9_extension_preserves_timestamp st9 "p1" (mkPersona "p1" [t9]) [] t9
    .agent "b" (some false) 99 (by decide) rfl rfl rfl

/-- C10: `updateTurnInHistory` with an updates object carrying no `reaction`
(modelled as `reaction = none`) overwrites the targeted turn's reaction to
`undefined`, erasing any previously set reaction. -/
theorem C10_update_erases_reaction (s : AppState) (pid : String) (i : Nat)
    (u : TurnUpdates) (p : Persona) (t : ConversationTurn)
    (hu : u.reaction = none)
    (hp : getPersonaById s pid = some p)
    (ht : p.chatHistory.get? i = some t) :
    (getPersonaById (updateTurnInHistory s pid i u) pid).map
        (fun q => (q.chatHistory.get? i).map ConversationTurn.reaction) =
      some (some none) := by
  rw [getPersonaById_updateTurnInHistory, hp]
  simp only [Option.map_some']
  rw [if_pos (id_beq_of_getPersonaById s pid p hp), ht]
  have hlen : i < p.chatHistory.length := by
    rw [List.get?_eq_getElem?] at ht
    exact (List.getElem?_eq_some_iff.mp ht).1
  simp only [List.get?_eq_getElem?]
  rw [List.getElem?_set_self (by simpa using hlen)]
  simp [hu]

/-- A turn with a previously set reaction, for the C10 witness. -/
def reactedTurn : ConversationTurn :=
  { timestamp := 0, role := .agent, text := "yo", isFinal := true, reaction := some "👍" }

/-- A state whose active persona has one reacted turn. -/
def reactedState : AppState :=
  { personas := [mkPersona "p1" [reactedTurn]],
    activePersonaId := some "p1", turns := [reactedTurn] }

/-- Witness for C10: a text-only update erases the concrete turn's 👍. -/
theorem C10_update_erases_reaction_witness :
    (getPersonaById (updateTurnInHistory reactedState "p1" 0
        { text := some "edited" }) "p1").map
        (fun q => (q.chatHistory.get? 0).map ConversationTurn.reaction) =
      some (some none) :=
  C10_update_erases_reaction reactedState "p1" 0 { text := some "edited" }
    (mkPersona "p1" [reactedTurn]) reactedTurn rfl (by decide) rfl

/-- C6: appending to a known, non-active persona increments `unreadCount` by
one exactly when the role is agent (user/system never increment); selecting a
persona zeroes its unread count; and the p2 scenario holds concretely. -/
theorem C6_unread_semantics :
    (∀ (s : AppState) (pid : String) (p : Persona) (role : Role) (c : String)
        (f : Option Bool) (now : Nat),
      getPersonaById s pid = some p → s.activePersonaId ≠ some pid →
      (getPersonaById (appendTurn s pid role c f now) pid).map Persona.unreadCount =
        some (if role = Role.agent
              then some (p.unreadCount.getD 0 + 1) else p.unreadCount))
    ∧ (∀ (s : AppState) (pid : String) (p : Persona),
        pid ≠ "" → getPersonaById s pid = some p →
        (getPersonaById (selectPersona s (some pid)) pid).map Persona.unreadCount =
          some (some 0))
    ∧ ((getPersonaById (appendTurn demoState "p2" .agent "hey" (some true) 0) "p2").map
          Persona.unreadCount = some (some 1))
    ∧ ((getPersonaById (selectPersona
          (appendTurn demoState "p2" .agent "hey" (some true) 0) (some "p2")) "p2").map
          Persona.unreadCount = some (some 0)) := by
  refine ⟨?_, ?_, ?_, ?_⟩
  · intro s pid p role c f now hp hna
    rw [appendTurn_eq s pid p role c f now hp]
    have hbeq : (s.activePersonaId == some pid) = false := by
      simp only [beq_eq_false_iff_ne, ne_eq]
      exact hna
    simp only [hbeq, Bool.false_eq_true, if_false]
    by_cases hrole : role = Role.agent
    · have hb : (role == Role.agent) = true := by simp [hrole]
      simp only [hb, if_true, if_pos hrole]
      rw [getPersonaById_incrementPersonaUnreadCount_self _ pid _
        (getPersonaById_updatePersonaChatHistory_self s pid p hp _)]
      rfl
    · have hb : (role == Role.agent) = false := by
        simp only [beq_eq_false_iff_ne, ne_eq]
        exact hrole
      simp only [hb, Bool.false_eq_true, if_false, if_neg hrole]
      rw [getPersonaById_updatePersonaChatHistory_self s pid p hp]
      rfl
  · intro s pid p hne hp
    have hie : pid.isEmpty = false := by
      cases h2 : pid.isEmpty
      · rfl
      · exact absurd ((String.isEmpty_iff pid).mp h2) hne
    have htr : jsTruthyStr (some pid) = true := by
      simp [jsTruthyStr, hie]
    have hsel : getPersonaById (selectPersona s (some pid)) pid =
        getPersonaById (clearPersonaUnreadCount s pid) pid := by
      unfold selectPersona
      rw [htr]
      rfl
    rw [hsel, getPersonaById_clearPersonaUnreadCount_self s pid p hp]
    rfl
  · decide
  · decide

/-- C2: for a known persona, a same-role sequence of `appendTurn` calls
started at a turn boundary (empty history, final trailing turn, or different
trailing role) adds exactly one trailing turn whose text is the concatenation
of all chunks in call order and whose `isFinal` is the left fold of the
optional flags (so flags of `none`/`some false` before the last call keep it
open); an extension sets `isFinal` to the passed value only when explicitly
provided and otherwise leaves it unchanged; and the Hi/Hel/lo! scenario
yields the two-turn history. -/
theorem C2_append_streaming :
    (∀ (s : AppState) (pid : String) (p : Persona) (role : Role)
        (c0 : AppendCall) (rest : List AppendCall),
      getPersonaById s pid = some p →
      (p.chatHistory = [] ∨ ∃ last, p.chatHistory.getLast? = some last ∧
        (last.isFinal = true ∨ last.role ≠ role)) →
      (∀ c ∈ (c0 :: rest).dropLast, c.isFinal = none ∨ c.isFinal = some false) →
      ∃ p', getPersonaById (appendCalls s pid role (c0 :: rest)) pid = some p' ∧
        p'.chatHistory = p.chatHistory ++
          [{ timestamp := c0.now, role := role,
             text := (c0 :: rest).foldl (fun txt c => txt ++ c.chunk) "",
             isFinal := (c0 :: rest).foldl (fun cur c => c.isFinal.getD cur) false,
             reaction := none }])
    ∧ (∀ (s : AppState) (pid : String) (p : Persona)
        (h : List ConversationTurn) (last : ConversationTurn) (role : Role)
        (c : String) (f : Option Bool) (now : Nat),
      getPersonaById s pid = some p → p.chatHistory = h ++ [last] →
      last.role = role → last.isFinal = false →
      ∃ p', getPersonaById (appendTurn s pid role c f now) pid = some p' ∧
        p'.chatHistory = h ++
          [{ last with text := last.text ++ c, isFinal := f.getD last.isFinal }])
    ∧ ((getPersonaById (appendTurn (appendTurn (appendTurn demoState
          "p1" .user "Hi" (some true) 0)
          "p1" .agent "Hel" (some false) 1)
          "p1" .agent "lo!" (some true) 2) "p1").map Persona.chatHistory =
        some [{ timestamp := 0, role := .user, text := "Hi", isFinal := true,
                reaction := none },
              { timestamp := 1, role := .agent, text := "Hello!", isFinal := true,
                reaction := none }]) := by
  refine ⟨?_, ?_, ?_⟩
  · intro s pid p role c0 rest hp hb hflags
    obtain ⟨p1, hp1, hh1⟩ :=
      appendTurn_result s pid p role c0.chunk c0.isFinal c0.now hp
    rw [appendedHistory_create p.chatHistory role c0.chunk c0.isFinal c0.now hb] at hh1
    cases rest with
    | nil => exact ⟨p1, hp1, hh1⟩
    | cons c2 rest2 =>
      have hc0 : c0.isFinal = none ∨ c0.isFinal = some false := by
        apply hflags
        exact List.mem_cons_self _ _
      have hfin : (Option.getD c0.isFinal false) = false := by
        rcases hc0 with hc | hc <;> simp [hc]
      have hflags2 : ∀ x ∈ (c2 :: rest2).dropLast,
          x.isFinal = none ∨ x.isFinal = some false := by
        intro x hx
        exact hflags x (List.mem_cons_of_mem _ hx)
      obtain ⟨p', hp', hh'⟩ := appendCalls_extend role (c2 :: rest2) _ pid p1
        p.chatHistory _ hp1 hh1 rfl hfin hflags2
      exact ⟨p', hp', hh'⟩
  · intro s pid p h last role c f now hp hh hr hf
    obtain ⟨p', hp', hh'⟩ := appendTurn_result s pid p role c f now hp
    rw [hh, appendedHistory_extend h last role c f now hr hf] at hh'
    exact ⟨p', hp', hh'⟩
  · decide

/-- Witness for C2: the agent chunks Hel / lo! accumulate into one final
turn reading Hello!. -/
theorem C2_append_streaming_witness :
    ∃ p', getPersonaById (appendCalls demoState "p1" .agent
        [⟨"Hel", some false, 1⟩, ⟨"lo!", some true, 2⟩]) "p1" = some p' ∧
      p'.chatHistory = [{ timestamp := 1, role := .agent, text := "Hello!",
                          isFinal := true, reaction := none }] := by
  obtain ⟨p', hp', hh'⟩ := C2_append_streaming.1 demoState "p1" (mkPersona "p1" [])
    .agent ⟨"Hel", some false, 1⟩ [⟨"lo!", some true, 2⟩] rfl (Or.inl rfl) (by decide)
  refine ⟨p', hp', ?_⟩
  rw [hh']
  decide

/-- Witness for C6: at the concrete two-persona state, an agent append to the
inactive p2 yields unread 1, and a user append leaves it unset. -/
theorem C6_unread_semantics_witness :
    (getPersonaById (appendTurn demoState "p2" .agent "hey" (some true) 0) "p2").map
        Persona.unreadCount = some (some 1)
    ∧ (getPersonaById (appendTurn demoState "p2" .user "hey" (some true) 0) "p2").map
        Persona.unreadCount = some none
    ∧ (getPersonaById (selectPersona demoState (some "p2")) "p2").map
        Persona.unreadCount = some (some 0) := by
  refine ⟨?_, ?_, ?_⟩
  · have h := C6_unread_semantics.1 demoState "p2" (mkPersona "p2" []) .agent
      "hey" (some true) 0 rfl (by decide)
    rw [h]
    rfl
  · have h := C6_unread_semantics.1 demoState "p2" (mkPersona "p2" []) .user
      "hey" (some true) 0 rfl (by decide)
    rw [h]
    rfl
  · exact C6_unread_semantics.2.1 demoState "p2" (mkPersona "p2" []) (by decide) rfl

theorem finalizeTurn_of_not_truthy (s : AppState)
    (h : jsTruthyStr s.activePersonaId = false) : finalizeTurn s = s := by
  unfold finalizeTurn
  rw [h]
  rfl

theorem finalizeTurn_of_no_persona (s : AppState) (apid : String)
    (hap : s.activePersonaId = some apid) (hp : getPersonaById s apid = none) :
    finalizeTurn s = s := by
  unfold finalizeTurn
  simp only [hap, hp, ite_self]

theorem finalizeTurn_of_empty (s : AppState) (apid : String) (p : Persona)
    (hap : s.activePersonaId = some apid) (hp : getPersonaById s apid = some p)
    (he : p.chatHistory = []) : finalizeTurn s = s := by
  unfold finalizeTurn
  simp [hap, hp, he]

theorem finalizeTurn_of_final (s : AppState) (apid : String) (p : Persona)
    (last : ConversationTurn)
    (hap : s.activePersonaId = some apid) (hp : getPersonaById s apid = some p)
    (hl : p.chatHistory.getLast? = some last) (hf : last.isFinal = true) :
    finalizeTurn s = s := by
  unfold finalizeTurn
  simp [hap, hp, hl, hf]

theorem finalizeTurn_action (s : AppState) (apid : String) (p : Persona)
    (last : ConversationTurn)
    (hap : s.activePersonaId = some apid) (htr : jsTruthyStr (some apid) = true)
    (hp : getPersonaById s apid = some p)
    (hl : p.chatHistory.getLast? = some last) (hf : last.isFinal = false) :
    finalizeTurn s = { updatePersonaChatHistory s apid
        (p.chatHistory.dropLast ++ [{ last with isFinal := true }]) with
      turns := p.chatHistory.dropLast ++ [{ last with isFinal := true }] } := by
  unfold finalizeTurn
  simp [hap, htr, hp, hl, hf]

/-- C4: `finalizeTurn` is idempotent — a second call with no intervening
append changes neither the persistent histories nor the active view — and it
is a complete no-op when there is no active persona, the active persona has
no turns, or the trailing turn is already final. -/
theorem C4_finalize_idempotent :
    (∀ s : AppState, finalizeTurn (finalizeTurn s) = finalizeTurn s)
    ∧ (∀ s : AppState, s.activePersonaId = none → finalizeTurn s = s)
    ∧ (∀ (s : AppState) (apid : String) (p : Persona),
        s.activePersonaId = some apid → getPersonaById s apid = some p →
        p.chatHistory = [] → finalizeTurn s = s)
    ∧ (∀ (s : AppState) (apid : String) (p : Persona) (last : ConversationTurn),
        s.activePersonaId = some apid → getPersonaById s apid = some p →
        p.chatHistory.getLast? = some last → last.isFinal = true →
        finalizeTurn s = s) := by
  refine ⟨?_, ?_, ?_, ?_⟩
  · intro s
    by_cases htr : jsTruthyStr s.activePersonaId = true
    · cases hap : s.activePersonaId with
      | none =>
        rw [hap] at htr
        simp [jsTruthyStr] at htr
      | some apid =>
        cases hp : getPersonaById s apid with
        | none =>
          rw [finalizeTurn_of_no_persona s apid hap hp,
            finalizeTurn_of_no_persona s apid hap hp]
        | some p =>
          cases hl : p.chatHistory.getLast? with
          | none =>
            have he : p.chatHistory = [] := List.getLast?_eq_none_iff.mp hl
            rw [finalizeTurn_of_empty s apid p hap hp he,
              finalizeTurn_of_empty s apid p hap hp he]
          | some last =>
            cases hf : last.isFinal with
            | true =>
              rw [finalizeTurn_of_final s apid p last hap hp hl hf,
                finalizeTurn_of_final s apid p last hap hp hl hf]
            | false =>
              rw [hap] at htr
              rw [finalizeTurn_action s apid p last hap htr hp hl hf]
              apply finalizeTurn_of_final _ apid
                { p with chatHistory :=
                    p.chatHistory.dropLast ++ [{ last with isFinal := true }] }
                { last with isFinal := true }
              · exact hap
              · exact getPersonaById_updatePersonaChatHistory_self s apid p hp _
              · exact List.getLast?_concat _
              · rfl
    · have h : jsTruthyStr s.activePersonaId = false := by
        cases h2 : jsTruthyStr s.activePersonaId
        · rfl
        · exact absurd h2 htr
      rw [finalizeTurn_of_not_truthy s h, finalizeTurn_of_not_truthy s h]
  · intro s h
    apply finalizeTurn_of_not_truthy
    rw [h]
    rfl
  · intro s apid p hap hp he
    exact finalizeTurn_of_empty s apid p hap hp he
  · intro s apid p last hap hp hl hf
    exact finalizeTurn_of_final s apid p last hap hp hl hf

/-- The demo state with no active persona, for the C4 witness. -/
def demoNoActive : AppState := { demoState with activePersonaId := none }

/-- Witness for C4: idempotence at a state with a non-final trailing turn,
and concrete no-ops for the no-active, empty-history and already-final
branches. -/
theorem C4_finalize_idempotent_witness :
    finalizeTurn (finalizeTurn st9) = finalizeTurn st9
    ∧ finalizeTurn demoNoActive = demoNoActive
    ∧ finalizeTurn demoState = demoState
    ∧ finalizeTurn reactedState = reactedState :=
  ⟨C4_finalize_idempotent.1 st9,
   C4_finalize_idempotent.2.1 demoNoActive rfl,
   C4_finalize_idempotent.2.2.1 demoState "p1" (mkPersona "p1" []) rfl rfl rfl,
   C4_finalize_idempotent.2.2.2 reactedState "p1" (mkPersona "p1" [reactedTurn])
     reactedTurn rfl rfl rfl rfl⟩

theorem stateInv_iff (s : AppState) :
    stateInv s = true ↔ ∀ p ∈ s.personas, histInv p.chatHistory = true := by
  unfold stateInv
  rw [List.all_eq_true]

theorem stateInv_updatePersonaChatHistory (s : AppState) (pid : String)
    (H : List ConversationTurn) (hs : stateInv s = true) (hH : histInv H = true) :
    stateInv (updatePersonaChatHistory s pid H) = true := by
  rw [stateInv_iff] at hs ⊢
  intro q hq
  have hq' : q ∈ s.personas.map (fun p =>
      if p.id == pid then { p with chatHistory := H } else p) := hq
  rw [List.mem_map] at hq'
  obtain ⟨r, hr, hqr⟩ := hq'
  subst hqr
  split
  · exact hH
  · exact hs r hr

theorem stateInv_incrementPersonaUnreadCount (s : AppState) (pid : String)
    (hs : stateInv s = true) :
    stateInv (incrementPersonaUnreadCount s pid) = true := by
  rw [stateInv_iff] at hs ⊢
  intro q hq
  have hq' : q ∈ s.personas.map (fun p => if p.id == pid then
      { p with unreadCount := some (p.unreadCount.getD 0 + 1) } else p) := hq
  rw [List.mem_map] at hq'
  obtain ⟨r, hr, hqr⟩ := hq'
  subst hqr
  split
  · exact hs r hr
  · exact hs r hr

theorem histInv_extend (l : List ConversationTurn) (x : ConversationTurn)
    (hl : histInv l = true) : histInv (l.dropLast ++ [x]) = true := by
  unfold histInv at *
  rw [List.dropLast_concat]
  exact hl

theorem histInv_push (l : List ConversationTurn) (last x : ConversationTurn)
    (hl : histInv l = true) (hlast : l.getLast? = some last)
    (hf : last.isFinal = true) : histInv (l ++ [x]) = true := by
  unfold histInv at *
  rw [List.dropLast_concat]
  obtain ⟨ys, rfl⟩ := List.getLast?_eq_some_iff.mp hlast
  rw [List.dropLast_concat] at hl
  rw [List.all_append]
  simp [hl, hf]

theorem histInv_appendedHistory (h : List ConversationTurn) (role : Role)
    (c : String) (f : Option Bool) (now : Nat)
    (hh : histInv h = true)
    (hsafe : ∀ last, h.getLast? = some last →
      (last.isFinal = true ∨ last.role = role)) :
    histInv (appendedHistory h role c f now) = true := by
  unfold appendedHistory
  cases hl : h.getLast? with
  | none =>
    have he : h = [] := List.getLast?_eq_none_iff.mp hl
    subst he
    rfl
  | some last =>
    dsimp only
    have hs := hsafe last hl
    by_cases hcond : (last.role == role && !last.isFinal) = true
    · rw [if_pos hcond]
      exact histInv_extend h _ hh
    · rw [if_neg hcond]
      have hfin : last.isFinal = true := by
        rcases hs with hs | hs
        · exact hs
        · cases hfi : last.isFinal
          · exfalso
            apply hcond
            simp [hs, hfi]
          · rfl
      exact histInv_push h last _ hh hl hfin

theorem stateInv_appendTurn (s : AppState) (pid : String) (role : Role)
    (c : String) (f : Option Bool) (now : Nat) (hs : stateInv s = true)
    (hsafe : opSafe s (.append pid role c f now) = true) :
    stateInv (appendTurn s pid role c f now) = true := by
  cases hp : getPersonaById s pid with
  | none =>
    unfold appendTurn
    rw [hp]
    exact hs
  | some p =>
    rw [appendTurn_eq s pid p role c f now hp]
    have hhp : histInv p.chatHistory = true :=
      (stateInv_iff s).mp hs p (mem_of_getPersonaById s pid p hp)
    have hsafe' : ∀ last, p.chatHistory.getLast? = some last →
        (last.isFinal = true ∨ last.role = role) := by
      intro last hl
      unfold opSafe at hsafe
      simp only [hp, hl] at hsafe
      cases hfi : last.isFinal
      · right
        rw [hfi] at hsafe
        simp only [Bool.false_or] at hsafe
        exact eq_of_beq hsafe
      · left
        rfl
    have hinv := histInv_appendedHistory p.chatHistory role c f now hhp hsafe'
    have h1 := stateInv_updatePersonaChatHistory s pid
      (appendedHistory p.chatHistory role c f now) hs hinv
    by_cases ha : (s.activePersonaId == some pid) = true
    · rw [if_pos ha]
      exact h1
    · rw [if_neg ha]
      by_cases hr : (role == Role.agent) = true
      · rw [if_pos hr]
        exact stateInv_incrementPersonaUnreadCount _ pid h1
      · rw [if_neg hr]
        exact h1

theorem stateInv_finalizeTurn (s : AppState) (hs : stateInv s = true) :
    stateInv (finalizeTurn s) = true := by
  by_cases htr : jsTruthyStr s.activePersonaId = true
  · cases hap : s.activePersonaId with
    | none =>
      rw [hap] at htr
      simp [jsTruthyStr] at htr
    | some apid =>
      cases hp : getPersonaById s apid with
      | none =>
        rw [finalizeTurn_of_no_persona s apid hap hp]
        exact hs
      | some p =>
        cases hl : p.chatHistory.getLast? with
        | none =>
          rw [finalizeTurn_of_empty s apid p hap hp (List.getLast?_eq_none_iff.mp hl)]
          exact hs
        | some last =>
          cases hf : last.isFinal with
          | true =>
            rw [finalizeTurn_of_final s apid p last hap hp hl hf]
            exact hs
          | false =>
            rw [hap] at htr
            rw [finalizeTurn_action s apid p last hap htr hp hl hf]
            exact stateInv_updatePersonaChatHistory s apid _ hs
              (histInv_extend _ _
                ((stateInv_iff s).mp hs p (mem_of_getPersonaById s apid p hp)))
  · have h : jsTruthyStr s.activePersonaId = false := by
      cases h2 : jsTruthyStr s.activePersonaId
      · rfl
      · exact absurd h2 htr
    rw [finalizeTurn_of_not_truthy s h]
    exact hs

theorem stateInv_applyOp (s : AppState) (op : LogOp) (hs : stateInv s = true)
    (hsafe : opSafe s op = true) : stateInv (applyOp s op) = true := by
  cases op with
  | append pid role c f now => exact stateInv_appendTurn s pid role c f now hs hsafe
  | finalize => exact stateInv_finalizeTurn s hs

/-- The operation sequence refuting C1: an agent append left open, followed
by a user append, buries a non-final turn under the new trailing turn. -/
def cexOps : List LogOp :=
  [.append "p1" .agent "a" (some false) 0, .append "p1" .user "b" (some true) 1]

/-- Counterexample to C1: starting from empty histories, appending a
non-final agent turn and then a user turn leaves the agent turn non-final
although it is no longer the trailing turn. -/
theorem C1_invariant_cex :
    demoState.personas.all (fun p => p.chatHistory.isEmpty) = true
    ∧ (getPersonaById (applyOps demoState cexOps) "p1").map
        (fun p => histInv p.chatHistory) = some false := by
  constructor
  · decide
  · decide

/-- C1 amended: the invariant — every turn preceding the trailing turn is
final — is preserved by every `appendTurn`/`finalizeTurn` sequence in which
each append finding a non-final trailing turn of a different role is
excluded (boundary-safe sequences); an unrestricted sequence can violate it
by appending a different role on top of a non-final trailing turn. -/
theorem C1_invariant_preserved (ops : List LogOp) : ∀ (s : AppState),
    stateInv s = true → opsSafe s ops = true →
    stateInv (applyOps s ops) = true := by
  induction ops with
  | nil =>
    intro s hs _
    exact hs
  | cons op rest ih =>
    intro s hs hsafe
    unfold opsSafe at hsafe
    rw [Bool.and_eq_true] at hsafe
    exact ih (applyOp s op) (stateInv_applyOp s op hs hsafe.1) hsafe.2

/-- A boundary-safe operation sequence for the C1 witness. -/
def safeOps : List LogOp :=
  [.append "p1" .agent "a" (some false) 0, .append "p1" .agent "b" (some true) 1,
   .finalize, .append "p1" .user "c" none 2, .finalize]

/-- Witness for C1 amended: the invariant holds after a concrete boundary-safe
sequence of appends and finalizes. -/
theorem C1_invariant_preserved_witness :
    stateInv (applyOps demoState safeOps) = true :=
  C1_invariant_preserved safeOps demoState (by decide) (by decide)

/-- The turn written by `updateTurnInHistory` at an in-range index:
`{...turn, ...updates, reaction: newReaction}` with the toggle rule applied. -/
def mergedTurn (old : ConversationTurn) (u : TurnUpdates) : ConversationTurn :=
  { applyTurnUpdates old u with
      reaction := if jsTruthyStr u.reaction && old.reaction == u.reaction
                  then none else u.reaction }

theorem getPersonaById_updateTurnInHistory_self (s : AppState) (apid : String)
    (p : Persona) (i : Nat) (u : TurnUpdates) (old : ConversationTurn)
    (hp : getPersonaById s apid = some p)
    (ht : p.chatHistory.get? i = some old) :
    getPersonaById (updateTurnInHistory s apid i u) apid =
      some { p with chatHistory := p.chatHistory.set i (mergedTurn old u) } := by
  rw [getPersonaById_updateTurnInHistory, hp]
  simp only [Option.map_some']
  rw [if_pos (id_beq_of_getPersonaById s apid p hp), ht]
  rfl

theorem getPersonaById_updateTurnInHistory_oob (s : AppState) (apid : String)
    (p : Persona) (i : Nat) (u : TurnUpdates)
    (hp : getPersonaById s apid = some p)
    (ht : p.chatHistory.get? i = none) :
    getPersonaById (updateTurnInHistory s apid i u) apid = some p := by
  rw [getPersonaById_updateTurnInHistory, hp]
  simp only [Option.map_some']
  rw [if_pos (id_beq_of_getPersonaById s apid p hp), ht]

theorem jsTruthyStr_of_ne (x : String) (h : x ≠ "") :
    jsTruthyStr (some x) = true := by
  have hie : x.isEmpty = false := by
    cases h2 : x.isEmpty
    · rfl
    · exact absurd ((String.isEmpty_iff x).mp h2) h
  simp [jsTruthyStr, hie]

theorem updateTurn_known (s : AppState) (apid : String) (p : Persona)
    (i : Nat) (u : TurnUpdates) (old : ConversationTurn)
    (hap : s.activePersonaId = some apid) (htr : jsTruthyStr (some apid) = true)
    (hp : getPersonaById s apid = some p)
    (ht : p.chatHistory.get? i = some old) :
    getPersonaById (updateTurn s i u) apid =
      some { p with chatHistory := p.chatHistory.set i (mergedTurn old u) } := by
  have h1 := getPersonaById_updateTurnInHistory_self s apid p i u old hp ht
  unfold updateTurn
  rw [hap]
  simp only [htr, Bool.not_true, Bool.false_eq_true, if_false]
  rw [h1]
  exact h1

theorem updateTurn_oob (s : AppState) (apid : String) (p : Persona)
    (i : Nat) (u : TurnUpdates)
    (hap : s.activePersonaId = some apid) (htr : jsTruthyStr (some apid) = true)
    (hp : getPersonaById s apid = some p)
    (ht : p.chatHistory.get? i = none) :
    getPersonaById (updateTurn s i u) apid = some p := by
  have h1 := getPersonaById_updateTurnInHistory_oob s apid p i u hp ht
  unfold updateTurn
  rw [hap]
  simp only [htr, Bool.not_true, Bool.false_eq_true, if_false]
  rw [h1]
  exact h1

theorem updateTurn_activePersonaId (s : AppState) (i : Nat) (u : TurnUpdates) :
    (updateTurn s i u).activePersonaId = s.activePersonaId := by
  unfold updateTurn
  split
  · rfl
  · split
    · rfl
    · dsimp only
      split <;> rfl

theorem get?_set_self_of_get? {α : Type} (l : List α) (i : Nat) (a old : α)
    (ht : l.get? i = some old) : (l.set i a).get? i = some a := by
  have hlen : i < l.length := by
    rw [List.get?_eq_getElem?] at ht
    exact (List.getElem?_eq_some_iff.mp ht).1
  rw [List.get?_eq_getElem?]
  rw [List.getElem?_set_self (by simpa using hlen)]

theorem mergedTurn_reaction_set (t : ConversationTurn) (r : String)
    (hr : r ≠ "") (hne : t.reaction ≠ some r) :
    (mergedTurn t { reaction := some r }).reaction = some r := by
  unfold mergedTurn
  have h1 : jsTruthyStr (some r) = true := jsTruthyStr_of_ne r hr
  have h2 : (t.reaction == some r) = false := by
    simp only [beq_eq_false_iff_ne, ne_eq]
    exact hne
  simp [h1, h2]

theorem mergedTurn_reaction_toggle (t : ConversationTurn) (r : String)
    (hr : r ≠ "") (heq : t.reaction = some r) :
    (mergedTurn t { reaction := some r }).reaction = none := by
  unfold mergedTurn
  have h1 : jsTruthyStr (some r) = true := jsTruthyStr_of_ne r hr
  have h2 : (t.reaction == some r) = true := by
    rw [heq]
    simp
  simp [h1, h2]

/-- Counterexample to C5: if the turn's reaction already equals `r`, applying
`updateTurn(i, {reaction: r})` twice leaves `reaction = r`, not undefined —
the first call toggles it off and the second sets it again. -/
theorem C5_toggle_cex :
    (getPersonaById (updateTurn (updateTurn reactedState 0 { reaction := some "👍" })
        0 { reaction := some "👍" }) "p1").map
      (fun q => (q.chatHistory.get? 0).map ConversationTurn.reaction) =
      some (some (some "👍"))
    ∧ (some "👍" : Option String) ≠ none := by
  constructor
  · decide
  · decide

/-- C5 amended: for an in-range index of the active persona's history and a
non-empty emoji `r`, applying `updateTurn(i, {reaction: r})` twice restores
the reaction to undefined provided the turn's reaction before the first call
differs from `r` (if it already equals `r`, two calls end at `r`); a single
call sets `r` when the current reaction differs and clears it when it is
equal; an out-of-range index leaves the persona's history unchanged. -/
theorem C5_reaction_toggle :
    (∀ (s : AppState) (apid : String) (p : Persona) (i : Nat)
        (t : ConversationTurn) (r : String),
      s.activePersonaId = some apid → apid ≠ "" →
      getPersonaById s apid = some p → p.chatHistory.get? i = some t →
      r ≠ "" → t.reaction ≠ some r →
      (getPersonaById (updateTurn (updateTurn s i { reaction := some r }) i
          { reaction := some r }) apid).map
        (fun q => (q.chatHistory.get? i).map ConversationTurn.reaction) =
        some (some none))
    ∧ (∀ (s : AppState) (apid : String) (p : Persona) (i : Nat)
        (t : ConversationTurn) (r : String),
      s.activePersonaId = some apid → apid ≠ "" →
      getPersonaById s apid = some p → p.chatHistory.get? i = some t →
      r ≠ "" → t.reaction ≠ some r →
      (getPersonaById (updateTurn s i { reaction := some r }) apid).map
        (fun q => (q.chatHistory.get? i).map ConversationTurn.reaction) =
        some (some (some r)))
    ∧ (∀ (s : AppState) (apid : String) (p : Persona) (i : Nat)
        (t : ConversationTurn) (r : String),
      s.activePersonaId = some apid → apid ≠ "" →
      getPersonaById s apid = some p → p.chatHistory.get? i = some t →
      r ≠ "" → t.reaction = some r →
      (getPersonaById (updateTurn s i { reaction := some r }) apid).map
        (fun q => (q.chatHistory.get? i).map ConversationTurn.reaction) =
        some (some none))
    ∧ (∀ (s : AppState) (apid : String) (p : Persona) (i : Nat) (u : TurnUpdates),
      s.activePersonaId = some apid → apid ≠ "" →
      getPersonaById s apid = some p → p.chatHistory.get? i = none →
      (getPersonaById (updateTurn s i u) apid).map Persona.chatHistory =
        some p.chatHistory) := by
  refine ⟨?_, ?_, ?_, ?_⟩
  · intro s apid p i t r hap hne hp ht hr hcur
    have htr := jsTruthyStr_of_ne apid hne
    have h1 := updateTurn_known s apid p i { reaction := some r } t hap htr hp ht
    have hap1 : (updateTurn s i { reaction := some r }).activePersonaId = some apid := by
      rw [updateTurn_activePersonaId, hap]
    have ht1 : ({ p with chatHistory :=
        p.chatHistory.set i (mergedTurn t { reaction := some r }) } :
          Persona).chatHistory.get? i = some (mergedTurn t { reaction := some r }) :=
      get?_set_self_of_get? p.chatHistory i _ t ht
    have h2 := updateTurn_known (updateTurn s i { reaction := some r }) apid
      _ i { reaction := some r } (mergedTurn t { reaction := some r })
      hap1 htr h1 ht1
    rw [h2]
    have hm1 : (mergedTurn t { reaction := some r }).reaction = some r :=
      mergedTurn_reaction_set t r hr hcur
    have hm2 : (mergedTurn (mergedTurn t { reaction := some r })
        { reaction := some r }).reaction = none :=
      mergedTurn_reaction_toggle _ r hr hm1
    simp only [Option.map_some']
    rw [get?_set_self_of_get? _ i _ (mergedTurn t { reaction := some r }) ht1]
    rw [Option.map_some', hm2]
  · intro s apid p i t r hap hne hp ht hr hcur
    have htr := jsTruthyStr_of_ne apid hne
    rw [updateTurn_known s apid p i { reaction := some r } t hap htr hp ht]
    simp only [Option.map_some']
    rw [get?_set_self_of_get? p.chatHistory i _ t ht]
    rw [Option.map_some', mergedTurn_reaction_set t r hr hcur]
  · intro s apid p i t r hap hne hp ht hr hcur
    have htr := jsTruthyStr_of_ne apid hne
    rw [updateTurn_known s apid p i { reaction := some r } t hap htr hp ht]
    simp only [Option.map_some']
    rw [get?_set_self_of_get? p.chatHistory i _ t ht]
    rw [Option.map_some', mergedTurn_reaction_toggle t r hr hcur]
  · intro s apid p i u hap hne hp ht
    have htr := jsTruthyStr_of_ne apid hne
    rw [updateTurn_oob s apid p i u hap htr hp ht]
    rfl

/-- A turn with no reaction yet, for the C5 witness. -/
def plainTurn : ConversationTurn :=
  { timestamp := 0, role := .agent, text := "yo", isFinal := true, reaction := none }

/-- A state whose active persona has one unreacted turn. -/
def plainState : AppState :=
  { personas := [mkPersona "p1" [plainTurn]],
    activePersonaId := some "p1", turns := [plainTurn] }

/-- Witness for C5 amended: from an unreacted turn, reacting 👍 twice ends
with no reaction. -/
theorem C5_reaction_toggle_witness :
    (getPersonaById (updateTurn (updateTurn plainState 0 { reaction := some "👍" })
        0 { reaction := some "👍" }) "p1").map
      (fun q => (q.chatHistory.get? 0).map ConversationTurn.reaction) =
      some (some none) :=
  C5_reaction_toggle.1 plainState "p1" (mkPersona "p1" [plainTurn]) 0 plainTurn
    "👍" rfl (by decide) rfl rfl (by decide) (by decide)

/-- The non-whitespace characters of a string, in order: the content that
trimming and single-space joins must preserve. -/
def nonWs (l : List Char) : List Char := l.filter (fun c => !isJsWhitespace c)

/-- Join fragments with a single space at each split point. -/
def joinSp : List (List Char) → List Char
  | [] => []
  | [b] => b
  | b :: rest => b ++ [' '] ++ joinSp rest

theorem dropWhile_head?_false (p : Char → Bool) (l : List Char) :
    ∀ a, (l.dropWhile p).head? = some a → p a = false := by
  induction l with
  | nil =>
    intro a h
    simp at h
  | cons x t ih =>
    intro a h
    by_cases hx : p x = true
    · rw [List.dropWhile_cons_of_pos hx] at h
      exact ih a h
    · rw [List.dropWhile_cons_of_neg hx] at h
      simp only [List.head?_cons, Option.some.injEq] at h
      subst h
      cases hb : p x
      · rfl
      · exact absurd hb hx

theorem dropWhile_getLast?_eq (p : Char → Bool) (l : List Char)
    (h : l.dropWhile p ≠ []) : (l.dropWhile p).getLast? = l.getLast? := by
  induction l with
  | nil => simp at h
  | cons x t ih =>
    by_cases hx : p x = true
    · rw [List.dropWhile_cons_of_pos hx] at h ⊢
      have ht : t ≠ [] := by
        intro he
        subst he
        simp at h
      rw [ih h]
      cases t with
      | nil => exact absurd rfl ht
      | cons y t2 => rw [List.getLast?_cons_cons]
    · rw [List.dropWhile_cons_of_neg hx]

theorem dropWhile_eq_self_of_head (p : Char → Bool) (l : List Char)
    (h : ∀ a, l.head? = some a → p a = false) : l.dropWhile p = l := by
  cases l with
  | nil => rfl
  | cons x t =>
    have hx := h x rfl
    rw [List.dropWhile_cons_of_neg (by simp [hx])]

theorem jsTrim_eq_self (l : List Char)
    (h1 : ∀ a, l.head? = some a → isJsWhitespace a = false)
    (h2 : ∀ a, l.getLast? = some a → isJsWhitespace a = false) :
    jsTrim l = l := by
  unfold jsTrim
  rw [dropWhile_eq_self_of_head _ _ h1,
    dropWhile_eq_self_of_head _ _
      (fun a ha => h2 a (by rwa [List.head?_reverse] at ha)),
    List.reverse_reverse]

theorem jsTrim_getLast?_false (s : List Char) :
    ∀ a, (jsTrim s).getLast? = some a → isJsWhitespace a = false := by
  intro a h
  unfold jsTrim at h
  rw [List.getLast?_reverse] at h
  exact dropWhile_head?_false _ _ a h

theorem jsTrim_head?_false (s : List Char) :
    ∀ a, (jsTrim s).head? = some a → isJsWhitespace a = false := by
  intro a h
  unfold jsTrim at h
  rw [List.head?_reverse] at h
  by_cases hne : (s.dropWhile isJsWhitespace).reverse.dropWhile isJsWhitespace = []
  · rw [hne] at h
    simp at h
  · rw [dropWhile_getLast?_eq _ _ hne, List.getLast?_reverse] at h
    exact dropWhile_head?_false _ _ a h

theorem jsTrim_idem (s : List Char) : jsTrim (jsTrim s) = jsTrim s :=
  jsTrim_eq_self _ (jsTrim_head?_false s) (jsTrim_getLast?_false s)

theorem nonWs_dropWhile (l : List Char) :
    nonWs (l.dropWhile isJsWhitespace) = nonWs l := by
  induction l with
  | nil => rfl
  | cons x t ih =>
    by_cases hx : isJsWhitespace x = true
    · rw [List.dropWhile_cons_of_pos hx, ih]
      unfold nonWs
      rw [List.filter_cons_of_neg (by simp [hx])]
    · rw [List.dropWhile_cons_of_neg hx]

theorem nonWs_reverse (l : List Char) : nonWs l.reverse = (nonWs l).reverse :=
  List.filter_reverse _ _

theorem nonWs_jsTrim (s : List Char) : nonWs (jsTrim s) = nonWs s := by
  unfold jsTrim
  rw [nonWs_reverse, nonWs_dropWhile, nonWs_reverse, List.reverse_reverse,
    nonWs_dropWhile]

theorem nonWs_take_drop (l : List Char) (k : Nat) :
    nonWs (l.take k) ++ nonWs (l.drop k) = nonWs l := by
  unfold nonWs
  rw [← List.filter_append, List.take_append_drop]

theorem nonWs_chunk_rest (r : List Char) (k : Nat) :
    nonWs (chunkAt r k) ++ nonWs (restAt r k) = nonWs r := by
  unfold chunkAt restAt
  rw [nonWs_jsTrim, nonWs_jsTrim, nonWs_take_drop]

theorem nonWs_joinSp (bs : List (List Char)) :
    nonWs (joinSp bs) = (bs.map nonWs).flatten := by
  induction bs with
  | nil => rfl
  | cons b rest ih =>
    cases rest with
    | nil => simp [joinSp, nonWs]
    | cons c t =>
      show nonWs (b ++ [' '] ++ joinSp (c :: t)) =
        nonWs b ++ ((c :: t).map nonWs).flatten
      unfold nonWs at *
      rw [List.filter_append, List.filter_append, ih]
      have hsp : List.filter (fun c => !isJsWhitespace c) [' '] = [] := rfl
      rw [hsp, List.append_nil]

theorem join_map_nonWs_filter (bs : List (List Char)) :
    ((bs.filter (fun b => decide (0 < b.length))).map nonWs).flatten =
      (bs.map nonWs).flatten := by
  induction bs with
  | nil => rfl
  | cons b rest ih =>
    by_cases hb : 0 < b.length
    · rw [List.filter_cons_of_pos (by simpa using hb)]
      simp only [List.map_cons, List.flatten_cons]
      rw [ih]
    · have hb0 : b = [] := by
        cases b with
        | nil => rfl
        | cons x xs => simp at hb
      subst hb0
      rw [List.filter_cons_of_neg (by simp)]
      rw [ih]
      simp [nonWs]

theorem splitLoop_nonWs (r : List Char) :
    ((splitLoop r).map nonWs).flatten = nonWs r := by
  induction r using splitLoop.induct with
  | case1 r h0 =>
    rw [splitLoop, dif_pos h0]
    rw [List.length_eq_zero.mp h0]
    rfl
  | case2 r h0 h1 =>
    rw [splitLoop, dif_neg h0, dif_pos h1]
    simp [nonWs]
  | case3 r h0 h1 hs ih =>
    rw [splitLoop, dif_neg h0, dif_neg h1, dif_pos hs]
    simp only [List.map_cons, List.flatten_cons]
    rw [ih, nonWs_chunk_rest]
  | case4 r h0 h1 hs hc ih =>
    rw [splitLoop, dif_neg h0, dif_neg h1, dif_neg hs, dif_pos hc]
    simp only [List.map_cons, List.flatten_cons]
    rw [ih, nonWs_chunk_rest]
  | case5 r h0 h1 hs hc hsp ih =>
    rw [splitLoop, dif_neg h0, dif_neg h1, dif_neg hs, dif_neg hc, dif_pos hsp]
    simp only [List.map_cons, List.flatten_cons]
    rw [ih, nonWs_chunk_rest]
  | case6 r h0 h1 hs hc hsp hn ih =>
    rw [splitLoop, dif_neg h0, dif_neg h1, dif_neg hs, dif_neg hc, dif_neg hsp,
      dif_pos hn]
    simp only [List.map_cons, List.flatten_cons]
    rw [ih, nonWs_chunk_rest]
  | case7 r h0 h1 hs hc hsp hn =>
    rw [splitLoop, dif_neg h0, dif_neg h1, dif_neg hs, dif_neg hc, dif_neg hsp,
      dif_neg hn]
    simp [nonWs]

theorem splitLoop_trimmed (r : List Char) :
    jsTrim r = r → ∀ b ∈ splitLoop r, jsTrim b = b := by
  induction r using splitLoop.induct with
  | case1 r h0 =>
    intro hr b hb
    rw [splitLoop, dif_pos h0] at hb
    simp at hb
  | case2 r h0 h1 =>
    intro hr b hb
    rw [splitLoop, dif_neg h0, dif_pos h1] at hb
    simp at hb
    subst hb
    exact hr
  | case3 r h0 h1 hs ih =>
    intro hr b hb
    rw [splitLoop, dif_neg h0, dif_neg h1, dif_pos hs] at hb
    rcases List.mem_cons.mp hb with hb | hb
    · subst hb
      exact jsTrim_idem _
    · exact ih (jsTrim_idem _) b hb
  | case4 r h0 h1 hs hc ih =>
    intro hr b hb
    rw [splitLoop, dif_neg h0, dif_neg h1, dif_neg hs, dif_pos hc] at hb
    rcases List.mem_cons.mp hb with hb | hb
    · subst hb
      exact jsTrim_idem _
    · exact ih (jsTrim_idem _) b hb
  | case5 r h0 h1 hs hc hsp ih =>
    intro hr b hb
    rw [splitLoop, dif_neg h0, dif_neg h1, dif_neg hs, dif_neg hc,
      dif_pos hsp] at hb
    rcases List.mem_cons.mp hb with hb | hb
    · subst hb
      exact jsTrim_idem _
    · exact ih (jsTrim_idem _) b hb
  | case6 r h0 h1 hs hc hsp hn ih =>
    intro hr b hb
    rw [splitLoop, dif_neg h0, dif_neg h1, dif_neg hs, dif_neg hc, dif_neg hsp,
      dif_pos hn] at hb
    rcases List.mem_cons.mp hb with hb | hb
    · subst hb
      exact jsTrim_idem _
    · exact ih (jsTrim_idem _) b hb
  | case7 r h0 h1 hs hc hsp hn =>
    intro hr b hb
    rw [splitLoop, dif_neg h0, dif_neg h1, dif_neg hs, dif_neg hc, dif_neg hsp,
      dif_neg hn] at hb
    simp at hb
    subst hb
    exact hr

/-- Counterexample to C3: for a short input, `splitMessage` returns the input
untrimmed, so the single fragment differs from the trimmed input; and for the
empty input the returned fragment is empty, contradicting the no-empty-
fragment clause. -/
theorem C3_splitMessage_cex :
    splitMessage (" hi ".data) = [" hi ".data]
    ∧ jsTrim (" hi ".data) = "hi".data
    ∧ " hi ".data ≠ "hi".data
    ∧ splitMessage [] = [[]] := by
  refine ⟨?_, ?_, ?_, ?_⟩ <;> decide

/-- C3 amended: for inputs under 140 characters `splitMessage` returns
exactly one fragment equal to the input as written (not trimmed, possibly
empty or whitespace); for inputs of at least 140 characters every returned
fragment is non-empty and trimmed of leading and trailing whitespace; and for
every input, joining the returned fragments with a single space at each split
point preserves the non-whitespace characters in order — lossless modulo
whitespace at the cut points. -/
theorem C3_splitMessage_spec :
    (∀ t : List Char, t.length < MAX_CHUNK → splitMessage t = [t])
    ∧ (∀ t : List Char, ¬ t.length < MAX_CHUNK → ∀ b ∈ splitMessage t,
        b ≠ [] ∧ jsTrim b = b)
    ∧ (∀ t : List Char, nonWs (joinSp (splitMessage t)) = nonWs t) := by
  refine ⟨?_, ?_, ?_⟩
  · intro t h
    unfold splitMessage
    rw [if_pos h]
  · intro t h b hb
    unfold splitMessage at hb
    rw [if_neg h] at hb
    obtain ⟨hmem, hpos⟩ := List.mem_filter.mp hb
    constructor
    · intro hbe
      subst hbe
      simp at hpos
    · exact splitLoop_trimmed (jsTrim t) (jsTrim_idem t) b hmem
  · intro t
    unfold splitMessage
    by_cases h : t.length < MAX_CHUNK
    · rw [if_pos h]
      rfl
    · rw [if_neg h]
      rw [nonWs_joinSp, join_map_nonWs_filter, splitLoop_nonWs, nonWs_jsTrim]

/-- A 150-character input with no whitespace or punctuation: the loop emits
it as a single bubble. -/
def longT : List Char := List.replicate 150 'a'

set_option maxRecDepth 40000 in
/-- The loop leaves the concrete 150-character input whole. -/
theorem splitMessage_longT : splitMessage longT = [longT] := by
  have ht : jsTrim longT = longT := by decide
  unfold splitMessage
  rw [if_neg (by decide), ht, splitLoop, dif_neg (by decide), dif_neg (by decide),
    dif_neg (by decide), dif_neg (by decide), dif_neg (by decide),
    dif_neg (by decide)]
  decide

set_option maxRecDepth 40000 in
/-- Witness for C3 amended: the short fragment law at a concrete input, the
non-empty/trimmed law at a concrete 150-character input, and the
reconstruction law at a concrete input. -/
theorem C3_splitMessage_spec_witness :
    splitMessage (" hi ".data) = [" hi ".data]
    ∧ (longT ≠ [] ∧ jsTrim longT = longT)
    ∧ nonWs (joinSp (splitMessage (" hi ".data))) = nonWs (" hi ".data) := by
  refine ⟨C3_splitMessage_spec.1 (" hi ".data) (by decide), ?_,
    C3_splitMessage_spec.2.2 (" hi ".data)⟩
  exact C3_splitMessage_spec.2.1 longT (by decide) longT
    (by rw [splitMessage_longT]; exact List.mem_singleton.mpr rfl)
